import Mathlib

/-
Verification of the stampede load-generator against its natural-language
specification.  Go strings are embedded as `List Char`; Go `int` (64-bit)
as `Int` with explicit wrapping where overflow matters; fallible code
(panics) as `Option`.  Each definition is translated from the named Go
source function.
-/

namespace Stampede

/-! ### String helpers (models of Go `strings` functions on `List Char`) -/

/-- Model of Go `strings.Contains sub` at one position:
`pat.isPrefixOf s`.  `hasSub pat s` is `strings.Contains(s, pat)`. -/
def hasSub (pat : List Char) : List Char → Bool
  | [] => pat.isEmpty
  | c :: rest => pat.isPrefixOf (c :: rest) || hasSub pat rest

/-- Model of Go `strings.Index(s, pat)`: index of the first occurrence of
`pat` in `s`, or `none` (Go returns -1). -/
def findSubIdx (pat : List Char) : List Char → Option Nat
  | [] => if pat.isEmpty then some 0 else none
  | c :: rest =>
    if pat.isPrefixOf (c :: rest) then some 0
    else (findSubIdx pat rest).map (· + 1)

/-- Worker for `replaceAll`.  `raAux pat rep s skip` processes `s` left to
right: while `skip > 0` it copies characters verbatim (they belong to an
occurrence already replaced); at `skip = 0` it replaces an occurrence of
`pat` starting here, or copies one character.  Structured so the recursion
is structural on the string, which makes it kernel-evaluable. -/
def raAux (pat rep : List Char) : List Char → Nat → List Char
  | [], _ => []
  | c :: rest, skip =>
    match skip with
    | n + 1 => raAux pat rep rest n
    | 0 =>
      if 0 < pat.length ∧ pat.isPrefixOf (c :: rest) then
        rep ++ raAux pat rep rest (pat.length - 1)
      else c :: raAux pat rep rest 0

/-- Model of Go `strings.ReplaceAll(s, pat, rep)`: replace every
non-overlapping occurrence of `pat`, scanning left to right; replacements
are not re-scanned.  (Go's behaviour for an empty `pat` — inserting `rep`
between runes — is not modelled; every pattern used in this program is
non-empty.) -/
def replaceAll (s pat rep : List Char) : List Char :=
  raAux pat rep s 0

/-- The whitespace set of Go `unicode.IsSpace`, used by
`strings.Fields`: the Latin-1 cases `'\t' '\n' '\v' '\f' '\r' ' '`,
U+0085, U+00A0, and the White_Space property code points above Latin-1 —
U+1680, U+2000-200A, U+2028, U+2029, U+202F, U+205F and U+3000. -/
def goIsSpace (c : Char) : Bool :=
  c = ' ' || c = '\t' || c = '\n' || c = '\x0b' || c = '\x0c' || c = '\r' ||
  c = '\x85' || c = '\xa0' || c = '\u1680' ||
  ('\u2000' ≤ c && c ≤ '\u200a') || c = '\u2028' || c = '\u2029' ||
  c = '\u202f' || c = '\u205f' || c = '\u3000'

/-- Worker for `goFields`: `acc` is the current word, reversed. -/
def fieldsAux : List Char → List Char → List (List Char)
  | [], acc => if acc.isEmpty then [] else [acc.reverse]
  | c :: rest, acc =>
    if goIsSpace c then
      if acc.isEmpty then fieldsAux rest [] else acc.reverse :: fieldsAux rest []
    else fieldsAux rest (c :: acc)

/-- Model of Go `strings.Fields`: the maximal runs of non-whitespace
characters. -/
def goFields (s : List Char) : List (List Char) :=
  fieldsAux s []

/-- Decimal digit value of a character, `none` if not `'0'..'9'`. -/
def digitVal (c : Char) : Option Nat :=
  if '0' ≤ c ∧ c ≤ '9' then some (c.toNat - 48) else none

/-- Value of a non-empty all-digit string. -/
def digitsVal : List Char → Option Nat
  | [] => none
  | [c] => digitVal c
  | c :: rest => match digitVal c, digitsVal rest with
    | some d, some v => some (d * 10 ^ rest.length + v)
    | _, _ => none

/-- Largest Go `int64`. -/
def int64Max : Int := 9223372036854775807

/-- Smallest Go `int64`. -/
def int64Min : Int := -9223372036854775808

/-- Model of Go `strconv.Atoi` (= `ParseInt(s, 10, 64)`): optional sign,
then one or more decimal digits, value within the `int64` range; every
other input is an error (`none`). -/
def atoi (s : List Char) : Option Int :=
  let signed : Option Int :=
    match s with
    | '-' :: rest => (digitsVal rest).map (fun n => -(n : Int))
    | '+' :: rest => (digitsVal rest).map (fun n => (n : Int))
    | _ => (digitsVal s).map (fun n => (n : Int))
  match signed with
  | some v => if int64Min ≤ v ∧ v ≤ int64Max then some v else none
  | none => none

/-- Model of Go `strconv.Itoa` for a natural number, via the
kernel-evaluable `Nat.toDigits`. -/
def natChars (n : Nat) : List Char :=
  Nat.toDigits 10 n

/-- Model of Go `strconv.Itoa` on `int`. -/
def itoa (i : Int) : List Char :=
  if i < 0 then '-' :: natChars (-i).toNat else natChars i.toNat

/-- Wrap an unbounded integer into the Go `int64` range (two's
complement). -/
def wrap64 (z : Int) : Int :=
  (z + 9223372036854775808) % 18446744073709551616 - 9223372036854775808

/-- Model of `rand.Intn n` for `0 < n`: the next value `r` from the
randomness tape, reduced into `[0, n)`. -/
def intn (r : Nat) (n : Nat) : Nat :=
  r % n

/-! ### Template expander (model of `internal/script/script.go`) -/

/-- The placeholder `\x7b\x7buserId\x7d\x7d` (braces written as escapes). -/
def patUserId : List Char := ("\x7b\x7buserId\x7d\x7d").toList

/-- The placeholder `\x7b\x7bepochms\x7d\x7d`. -/
def patEpochms : List Char := ("\x7b\x7bepochms\x7d\x7d").toList

/-- The 9-character opener `\x7b\x7brandInt` searched for by the randInt
loop of `expandString`. -/
def patRandInt : List Char := ("\x7b\x7brandInt").toList

/-- The 11-character opener `\x7b\x7brandDelay`. -/
def patRandDelay : List Char := ("\x7b\x7brandDelay").toList

/-- The placeholder `\x7b\x7bpick movies\x7d\x7d`. -/
def patPickMovies : List Char := ("\x7b\x7bpick movies\x7d\x7d").toList

/-- The closing `\x7d\x7d`. -/
def tplCloser : List Char := ("\x7d\x7d").toList

/-- One iteration body of the `\x7b\x7brandInt A B\x7d\x7d` /
`\x7b\x7brandDelay A B\x7d\x7d` loops of `expandString`
(script.go:82-113 and 123-154), given the text `inner` standing between
the opener and the first `\x7d\x7d`: with exactly two fields that parse
as ints and `max > min`, draw `rand.Intn(max-min+1) + min`; otherwise the
literal fallback (`1` for randInt, `1000` for randDelay).
`rand.Intn` panics (`none`) when its argument, computed in wrapping
`int64` arithmetic, is not positive.  Returns the replacement text and
the remaining randomness tape. -/
def randIntRepl (fallback inner : List Char) (tape : List Nat) :
    Option (List Char × List Nat) :=
  match goFields inner with
  | [pa, pb] =>
    match atoi pa, atoi pb with
    | some mn, some mx =>
      if mn < mx then
        let n := wrap64 (mx - mn + 1)
        if 0 < n then
          some (itoa (mn + (intn (tape.headD 0) n.toNat : Int)), tape.tail)
        else none
      else some (fallback, tape)
    | _, _ => some (fallback, tape)
  | _ => some (fallback, tape)

/-- The `for strings.Contains(result, opener)` loops of `expandString`,
as a single left-to-right scan.  Go's loop re-scans the spliced string
from index 0 after each replacement, but the prefix before the first
occurrence contains no occurrence by minimality and a spliced decimal
numeral (or `1`/`1000`) contains no character of the opener, so no new
occurrence can appear at or before the splice point: the restart loop and
this scan produce the same string.  When a `skip` count is pending the
scanner is inside text already accounted for (the matched placeholder)
and drops it.  `none` models the `rand.Intn` panic. -/
def scanTplAux (opener fallback : List Char) :
    List Char → Nat → List Nat → Option (List Char × List Nat)
  | [], _, tape => some ([], tape)
  | _ :: rest, n + 1, tape => scanTplAux opener fallback rest n tape
  | c :: rest, 0, tape =>
    if opener.isPrefixOf (c :: rest) then
      match findSubIdx tplCloser (c :: rest) with
      | none => some (c :: rest, tape)
      | some end0 =>
        let inner := ((c :: rest).drop opener.length).take (end0 - opener.length)
        match randIntRepl fallback inner tape with
        | none => none
        | some (repl, tape') =>
          (scanTplAux opener fallback rest (end0 + 1) tape').map
            (fun p => (repl ++ p.1, p.2))
    else
      (scanTplAux opener fallback rest 0 tape).map (fun p => (c :: p.1, p.2))

/-- The `\x7b\x7brandInt A B\x7d\x7d` loop of `expandString`
(script.go:82-113). -/
def randIntStage (s : List Char) (tape : List Nat) :
    Option (List Char × List Nat) :=
  scanTplAux patRandInt (("1").toList) s 0 tape

/-- The `\x7b\x7brandDelay A B\x7d\x7d` loop of `expandString`
(script.go:123-154). -/
def randDelayStage (s : List Char) (tape : List Nat) :
    Option (List Char × List Nat) :=
  scanTplAux patRandDelay (("1000").toList) s 0 tape

/-- The fixed movie sample list of `expandString` (script.go:116). -/
def pickMovieList : List (List Char) :=
  [("movie1").toList, ("movie2").toList, ("movie3").toList,
   ("movie4").toList, ("movie5").toList]

/-- The `\x7b\x7bpick movies\x7d\x7d` block of `expandString`
(script.go:115-120): one random draw shared by every occurrence. -/
def pickStage (s : List Char) (tape : List Nat) : List Char × List Nat :=
  if hasSub patPickMovies s then
    (replaceAll s patPickMovies (pickMovieList.getD (intn (tape.headD 0) 5) []),
     tape.tail)
  else (s, tape)

/-- Model of `expandString` (script.go:72-157).  The wall clock
(`time.Now().UnixMilli()`) is the parameter `nowMs` and the shared
`math/rand` source is the tape of naturals `tape`; `none` models a
`rand.Intn` panic. -/
def expandString (s : List Char) (userID nowMs : Int) (tape : List Nat) :
    Option (List Char) :=
  let r1 := replaceAll s patUserId (itoa userID)
  let r2 := replaceAll r1 patEpochms (itoa nowMs)
  match randIntStage r2 tape with
  | none => none
  | some (r3, t3) =>
    let p := pickStage r3 t3
    match randDelayStage p.1 p.2 with
    | none => none
    | some (r5, _) => some r5

/-! ### Credentials (model of `internal/util/credentials.go`) -/

/-- A username/password pair (credentials.go:12-15). -/
structure Credentials where
  Username : List Char
  Password : List Char
deriving DecidableEq

/-- The loaded credential pool (credentials.go:18-22); the mutex is
internal synchronisation and has no observable state. -/
structure CredentialsManager where
  credentials : List Credentials
  current : Nat
deriving DecidableEq

/-- Model of `CredentialsManager.GetCredentialsForUser`
(credentials.go:89-95): `credentials[userID % len(credentials)]`.  The
manager state is returned unchanged (the method only takes the lock).
Go would panic on an empty pool (`% 0`), modelled by `none`; user ids in
the program are the positive worker ids, hence `Nat`. -/
def CredentialsManager.GetCredentialsForUser (cm : CredentialsManager)
    (userID : Nat) : Option Credentials × CredentialsManager :=
  (cm.credentials.get? (userID % cm.credentials.length), cm)

/-! ### Worker (model of `internal/worker/worker.go`) -/

/-- The placeholder `\x7b\x7busername\x7d\x7d`. -/
def patUsername : List Char := ("\x7b\x7busername\x7d\x7d").toList

/-- The placeholder `\x7b\x7bpassword\x7d\x7d`. -/
def patPassword : List Char := ("\x7b\x7bpassword\x7d\x7d").toList

/-- The placeholder `\x7b\x7bemail\x7d\x7d`. -/
def patEmail : List Char := ("\x7b\x7bemail\x7d\x7d").toList

/-- Model of `Worker.replaceCredentialPlaceholders` (worker.go:256-269):
three `strings.ReplaceAll` passes; `\x7b\x7bemail\x7d\x7d` receives the
username. -/
def replaceCredentialPlaceholders (content : List Char)
    (creds : Credentials) : List Char :=
  if content = [] then content
  else
    let c1 := replaceAll content patUsername creds.Username
    let c2 := replaceAll c1 patPassword creds.Password
    replaceAll c2 patEmail creds.Username

/-- A scenario action (script.go:15-27); duration fields stay strings as
in the Go struct. -/
structure Action where
  Name : List Char
  Method : List Char
  URL : List Char
  JSONBody : List Char
  Body : List Char
  Headers : List (List Char × List Char)
  ExpectStatus : Int
  Timeout : List Char
  Delay : List Char
  DelayMin : List Char
  DelayMax : List Char
deriving DecidableEq

/-- The credential-substitution step of `Worker.executeAction`
(worker.go:162-167): with a credentials manager present, only `Body` and
`JSONBody` pass through `replaceCredentialPlaceholders`; `URL` and
`Headers` are not touched by it. -/
def applyCredentials (a : Action) (creds : Credentials) : Action :=
  { a with
    Body := replaceCredentialPlaceholders a.Body creds,
    JSONBody := replaceCredentialPlaceholders a.JSONBody creds }

/-- Upper-case hexadecimal digit. -/
def hexUpper (n : Nat) : Char :=
  if n < 10 then Char.ofNat (48 + n) else Char.ofNat (55 + n)

/-- Percent escape `%XX` of one byte. -/
def escapeByte (b : Nat) : List Char :=
  ['%', hexUpper (b / 16), hexUpper (b % 16)]

/-- Model of Go `url.QueryEscape`: unreserved characters kept, space
becomes `+`, every other character is percent-escaped byte by byte
(UTF-8). -/
def queryEscape (s : List Char) : List Char :=
  s.flatMap fun c =>
    if ('A' ≤ c ∧ c ≤ 'Z') ∨ ('a' ≤ c ∧ c ≤ 'z') ∨ ('0' ≤ c ∧ c ≤ '9') ∨
       c = '-' ∨ c = '_' ∨ c = '.' ∨ c = '~' then [c]
    else if c = ' ' then ['+']
    else (String.utf8EncodeChar c).flatMap (fun b => escapeByte b.toNat)

/-- The literal body token `CSRF_TOKEN_PLACEHOLDER`. -/
def patCSRF : List Char := ("CSRF_TOKEN_PLACEHOLDER").toList

/-- The request-body construction of `Worker.executeAction`
(worker.go:172-184): a non-empty JSON body is sent verbatim; otherwise a
non-empty form body is sent, with `CSRF_TOKEN_PLACEHOLDER` replaced by
the URL-encoded current token only when that token is non-empty. -/
def buildBody (jsonBody formBody csrfToken : List Char) : List Char :=
  if jsonBody ≠ [] then jsonBody
  else if formBody ≠ [] then
    if csrfToken ≠ [] then replaceAll formBody patCSRF (queryEscape csrfToken)
    else formBody
  else []

/-- String `<meta name="csrf-token" content="`, the literal head of the first
CSRF extraction pattern (worker.go:274). -/
def litMeta : List Char := ("<meta name=\"csrf-token\" content=\"").toList

/-- String `<input`, head of the second pattern (worker.go:281). -/
def litInput : List Char := ("<input").toList

/-- String `name="authenticity_token"`, middle literal of the second pattern. -/
def litNameAuth : List Char := ("name=\"authenticity_token\"").toList

/-- String `authenticity_token"`, head of the third pattern (worker.go:288). -/
def litAuthQ : List Char := ("authenticity_token\"").toList

/-- String `value="`, shared tail literal of patterns two and three. -/
def litValueEq : List Char := ("value=\"").toList

/-- Capture `([^"]+)"`: the capture is the maximal run of non-quote characters,
which must be non-empty and terminated by a quote (a shorter greedy
choice would abut a non-quote character, so backtracking cannot help). -/
def capNonQuote (r : List Char) : Option (List Char) :=
  let cap := r.takeWhile (fun c => c ≠ '"')
  if 0 < cap.length ∧ cap.length < r.length then some cap else none

/-- Backtracking search for a greedy `[^>]*`: try the longest viable
consumption first (`i` characters of `r`), shrinking on failure, exactly
as Go's leftmost-first regexp semantics prescribe.  `i` starts at the
length of the maximal `>`-free run of `r`. -/
def greedyDesc (r : List Char) (cont : List Char → Option (List Char)) :
    Nat → Option (List Char)
  | 0 => cont r
  | i + 1 => cont (r.drop (i + 1)) <|> greedyDesc r cont i

/-- The `value="([^"]+)"` continuation. -/
def matchValueThen (r : List Char) : Option (List Char) :=
  if litValueEq.isPrefixOf r then capNonQuote (r.drop litValueEq.length)
  else none

/-- Match of `<meta name="csrf-token" content="([^"]+)"` anchored at the
start of `s` (worker.go:274). -/
def matchMetaAt (s : List Char) : Option (List Char) :=
  if litMeta.isPrefixOf s then capNonQuote (s.drop litMeta.length) else none

/-- Match of `<input[^>]*name="authenticity_token"[^>]*value="([^"]+)"`
anchored at the start of `s` (worker.go:281). -/
def matchInputAt (s : List Char) : Option (List Char) :=
  if litInput.isPrefixOf s then
    let r := s.drop litInput.length
    greedyDesc r
      (fun r2 =>
        if litNameAuth.isPrefixOf r2 then
          let r3 := r2.drop litNameAuth.length
          greedyDesc r3 matchValueThen (r3.takeWhile (fun c => c ≠ '>')).length
        else none)
      (r.takeWhile (fun c => c ≠ '>')).length
  else none

/-- Match of `authenticity_token"[^>]*value="([^"]+)"` anchored at the
start of `s` (worker.go:288). -/
def matchAuthAt (s : List Char) : Option (List Char) :=
  if litAuthQ.isPrefixOf s then
    let r := s.drop litAuthQ.length
    greedyDesc r matchValueThen (r.takeWhile (fun c => c ≠ '>')).length
  else none

/-- Leftmost match: Go's `FindStringSubmatch` returns the match starting
at the earliest position, so try every start position left to right. -/
def scanHtml (f : List Char → Option (List Char)) :
    List Char → Option (List Char)
  | [] => f []
  | c :: rest => f (c :: rest) <|> scanHtml f rest

/-- Model of `Worker.extractCSRFTokenFromHTML` (worker.go:272-293):
`token` is the worker's current CSRF token, returned unchanged when no
pattern matches; the three patterns are tried strictly in order. -/
def extractCSRFTokenFromHTML (token html : List Char) : List Char :=
  match scanHtml matchMetaAt html with
  | some cap => cap
  | none =>
    match scanHtml matchInputAt html with
    | some cap => cap
    | none =>
      match scanHtml matchAuthAt html with
      | some cap => cap
      | none => token

/-! ### Rate limiter (model of `internal/util/credentials.go`'s sibling
file, the token bucket in `util.RateLimiter`) -/

/-- Token-bucket state (ratelimiter struct): `rate` tokens per second,
bucket `capacity`, current `tokens`, and `lastTime` in nanoseconds.  Go
`int` fields are `Int`; `time.Time` is an instant in nanoseconds. -/
structure RateLimiter where
  rate : Int
  capacity : Int
  tokens : Int
  lastTime : Int
deriving DecidableEq

/-- Model of `NewRateLimiter(rps)`: rate, capacity and initial tokens all
equal `rps`; `lastTime` is the construction instant. -/
def NewRateLimiter (rps now : Int) : RateLimiter :=
  { rate := rps, capacity := rps, tokens := rps, lastTime := now }

/-- Model of `RateLimiter.Allow` called at instant `now` (nanoseconds):
`tokensToAdd = int(elapsed.Seconds() * float64(rate))` is modelled as
exact multiplication with truncation toward zero (for `rate = 0`, the
case the claims exercise, the float product is exactly `0.0` and the two
agree exactly); when positive it refills the bucket, clamped at
`capacity`, and stamps `lastTime`.  A positive balance then yields a
token. -/
def RateLimiter.Allow (rl : RateLimiter) (now : Int) : Bool × RateLimiter :=
  let elapsed := now - rl.lastTime
  let tokensToAdd := Int.tdiv (elapsed * rl.rate) 1000000000
  let refilled :=
    if 0 < tokensToAdd then
      let t := rl.tokens + tokensToAdd
      { rl with tokens := if rl.capacity < t then rl.capacity else t,
                lastTime := now }
    else rl
  if 0 < refilled.tokens then
    (true, { refilled with tokens := refilled.tokens - 1 })
  else (false, refilled)

/-- Model of `RateLimiter.Wait`, which calls `Allow` in a sleep loop
until it returns true: given the instants at which the successive `Allow`
calls happen, return the state after the first success, or `none` when
every call in the list fails — a `Wait` that has not returned. -/
def RateLimiter.waitRun : RateLimiter → List Int → Option RateLimiter
  | _, [] => none
  | rl, t :: ts =>
    match rl.Allow t with
    | (true, rl') => some rl'
    | (false, rl') => rl'.waitRun ts

/-! ### Metric pipeline (model of `internal/metrics/metrics.go`) -/

/-- A request event (metrics.go:11-20); instants are nanoseconds. -/
structure RequestMetric where
  Name : List Char
  Method : List Char
  URL : List Char
  StartTime : Int
  EndTime : Int
  StatusCode : Int
  BytesRead : Int
  Error : List Char
deriving DecidableEq

/-- Per-action aggregate (metrics.go:23-30).  The HdrHistogram is
modelled by `recorded`, the sequence of values passed to
`Histogram.RecordValue` by the collector, in call order; what the
histogram library does with an out-of-range value is its own affair and
is not part of this model. -/
structure ActionStats where
  Name : List Char
  TotalOK : Int
  TotalErrors : Int
  recorded : List Int
  BytesTotal : Int
deriving DecidableEq

/-- A fresh stats record as `collect` lazily creates it
(metrics.go:92-99): zero counters and an empty histogram. -/
def newStats (name : List Char) : ActionStats :=
  { Name := name, TotalOK := 0, TotalErrors := 0, recorded := [], BytesTotal := 0 }

/-- Latency `metric.EndTime.Sub(metric.StartTime).Microseconds()`
(metrics.go:103): nanosecond difference divided by 1000, truncating
toward zero as Go's `Duration.Microseconds` does. -/
def latencyMicros (m : RequestMetric) : Int :=
  Int.tdiv (m.EndTime - m.StartTime) 1000

/-- The success test of `collect` (metrics.go:105): empty error
descriptor and status in `[200, 400)`. -/
def isSuccessMetric (m : RequestMetric) : Bool :=
  decide (m.Error = [] ∧ 200 ≤ m.StatusCode ∧ m.StatusCode < 400)

/-- The per-event update of `collect` (metrics.go:102-113): on success
increment `TotalOK` and record the latency; otherwise increment
`TotalErrors`; always add the bytes. -/
def updateStats (st : ActionStats) (m : RequestMetric) : ActionStats :=
  let st' :=
    if isSuccessMetric m then
      { st with TotalOK := st.TotalOK + 1,
                recorded := st.recorded ++ [latencyMicros m] }
    else { st with TotalErrors := st.TotalErrors + 1 }
  { st' with BytesTotal := st'.BytesTotal + m.BytesRead }

/-- The `actions` map of the collector, as an association list with
unique keys (insertion order; Go map iteration order is irrelevant to the
claims). -/
def findStats : List (List Char × ActionStats) → List Char → Option ActionStats
  | [], _ => none
  | (k, v) :: rest, name => if k = name then some v else findStats rest name

/-- Insert-or-replace into the `actions` map. -/
def setStats : List (List Char × ActionStats) → List Char → ActionStats →
    List (List Char × ActionStats)
  | [], name, st => [(name, st)]
  | (k, v) :: rest, name, st =>
    if k = name then (k, st) :: rest else (k, v) :: setStats rest name st

/-- One iteration of the drain loop of `Collector.collect`
(metrics.go:87-116): look up or lazily create the action's stats, then
apply the per-event update. -/
def collectStep (acts : List (List Char × ActionStats)) (m : RequestMetric) :
    List (List Char × ActionStats) :=
  let st := (findStats acts m.Name).getD (newStats m.Name)
  setStats acts m.Name (updateStats st m)

/-- The drain loop of `Collector.collect` over a list of drained events
(the channel contents, in order). -/
def collect (acts : List (List Char × ActionStats))
    (ms : List RequestMetric) : List (List Char × ActionStats) :=
  ms.foldl collectStep acts

/-- The sink capacity (metrics.go:44): `make(chan RequestMetric, 10000)`. -/
def sinkCapacity : Nat := 10000

/-- Model of `Collector.Record` (metrics.go:52-58): non-blocking send —
append when the queue has room, silently drop otherwise. -/
def Record (queue : List RequestMetric) (m : RequestMetric) :
    List RequestMetric :=
  if queue.length < sinkCapacity then queue ++ [m] else queue

/-! ### Orchestrator shutdown (model of `Orchestrator.Run`,
`internal/orchestrator/orchestrator.go:66-124`) -/

/-- The externally observable shutdown steps of `Orchestrator.Run`. -/
inductive RunEvent where
  | workersReturned
  | reportPrinted
  | fileWritten
  | sinkClosed
  | aggregatorDrained
deriving DecidableEq

/-- The order in which `Orchestrator.Run` performs its shutdown steps,
read off the source: after `<-ctx.Done()` it calls `wg.Wait()` (line
110), prints the final report (line 113), writes the output file when a
path was given (lines 116-121), and only then returns — at which point
the deferred `o.collector.Stop()` from line 76 runs, closing the metrics
channel and waiting for the drain to finish (metrics.go:66-69). -/
def runShutdownTrace (hasOutputFile : Bool) : List RunEvent :=
  [RunEvent.workersReturned, RunEvent.reportPrinted] ++
  (if hasOutputFile then [RunEvent.fileWritten] else []) ++
  [RunEvent.sinkClosed, RunEvent.aggregatorDrained]

/-- The statistics the final report is computed from: the reporter's
`GetStats` snapshot of the aggregator map at report time.  Events still
sitting in the channel (`pending`) have not been applied. -/
def reportSnapshot (_pending : List RequestMetric)
    (acts : List (List Char × ActionStats)) : List (List Char × ActionStats) :=
  acts

/-- The aggregator map after the deferred `collector.Stop()` has closed
the channel and `collect` has drained the remaining `pending` events. -/
def statsAfterShutdown (pending : List RequestMetric)
    (acts : List (List Char × ActionStats)) : List (List Char × ActionStats) :=
  collect acts pending

/-! ### Concrete example inputs used by witnesses and counterexamples -/

/-- Example credential pair. -/
def credA : Credentials := { Username := ("alice").toList, Password := ("pw1").toList }

/-- Example credential pair. -/
def credB : Credentials := { Username := ("bob").toList, Password := ("pw2").toList }

/-- A concrete two-entry credential pool. -/
def cmEx : CredentialsManager := { credentials := [credA, credB], current := 0 }

/-- A successful request event whose latency (61 s) exceeds the
histogram's upper bound of 60 s = 60000000 us. -/
def slowMetric : RequestMetric :=
  { Name := ("A").toList, Method := ("GET").toList, URL := ("u").toList,
    StartTime := 0, EndTime := 61000000000, StatusCode := 200,
    BytesRead := 5, Error := [] }

/-- A successful request event sitting in the sink queue at shutdown. -/
def pendingMetric : RequestMetric :=
  { Name := ("P").toList, Method := ("GET").toList, URL := ("u").toList,
    StartTime := 0, EndTime := 3000000, StatusCode := 200,
    BytesRead := 7, Error := [] }

/-- An action whose URL, a header value and the form body all consist of
the literal placeholder `\x7b\x7busername\x7d\x7d`. -/
def actionEx : Action :=
  { Name := ("Act").toList, Method := ("GET").toList, URL := patUsername,
    JSONBody := [], Body := patUsername,
    Headers := [(("H").toList, patUsername)], ExpectStatus := 200,
    Timeout := [], Delay := [], DelayMin := [], DelayMax := [] }

/-- An HTML body matched by both the meta pattern (token `TKN1`) and the
input pattern (token `TKN2`). -/
def htmlEx : List Char :=
  ("<meta name=\"csrf-token\" content=\"TKN1\"><input name=\"authenticity_token\" value=\"TKN2\">").toList

/-- A form body carrying the literal CSRF placeholder. -/
def formBodyEx : List Char := ("tok=CSRF_TOKEN_PLACEHOLDER").toList

/-- A JSON body carrying the literal CSRF placeholder. -/
def jsonBodyEx : List Char := ("j=CSRF_TOKEN_PLACEHOLDER").toList

/-! ### Lemmas about the aggregator -/

/-- Looking up after insert-or-replace. -/
theorem findStats_setStats (acts : List (List Char × ActionStats))
    (k name : List Char) (st : ActionStats) :
    findStats (setStats acts k st) name =
      if k = name then some st else findStats acts name := by
  induction acts with
  | nil =>
    by_cases h : k = name <;> simp [setStats, findStats, h]
  | cons p rest ih =>
    obtain ⟨k', v'⟩ := p
    by_cases hk : k' = k
    · subst hk
      by_cases h : k' = name <;> simp [setStats, findStats, h]
    · by_cases h : k' = name
      · subst h
        simp [setStats, findStats, hk, Ne.symm hk]
      · simp [setStats, findStats, hk, h, ih]

/-- After one drain-loop iteration, the event's own action holds the
updated stats. -/
theorem collectStep_findStats_self (acts : List (List Char × ActionStats))
    (m : RequestMetric) :
    findStats (collectStep acts m) m.Name =
      some (updateStats ((findStats acts m.Name).getD (newStats m.Name)) m) := by
  simp [collectStep, findStats_setStats]

/-- After one drain-loop iteration, other actions are untouched. -/
theorem collectStep_findStats_other (acts : List (List Char × ActionStats))
    (m : RequestMetric) (name : List Char) (h : m.Name ≠ name) :
    findStats (collectStep acts m) name = findStats acts name := by
  simp [collectStep, findStats_setStats, h]

/-- Sum `TotalOK + TotalErrors` of an action, with absent actions counting
as zero. -/
def okErrTotal (acts : List (List Char × ActionStats)) (name : List Char) : Int :=
  ((findStats acts name).getD (newStats name)).TotalOK +
  ((findStats acts name).getD (newStats name)).TotalErrors

/-- One drained event adds exactly one to `OK + ERR` of its own action
and nothing to any other. -/
theorem okErrTotal_collectStep (acts : List (List Char × ActionStats))
    (m : RequestMetric) (name : List Char) :
    okErrTotal (collectStep acts m) name =
      okErrTotal acts name + (if m.Name = name then 1 else 0) := by
  by_cases h : m.Name = name
  · subst h
    rw [okErrTotal, collectStep_findStats_self]
    by_cases hs : isSuccessMetric m <;>
      simp [okErrTotal, updateStats, hs] <;> ring
  · rw [okErrTotal, collectStep_findStats_other acts m name h]
    simp [okErrTotal, h]

/-- Draining a list of events adds the per-name event count to
`OK + ERR`. -/
theorem okErrTotal_collect (ms : List RequestMetric)
    (acts : List (List Char × ActionStats)) (name : List Char) :
    okErrTotal (collect acts ms) name =
      okErrTotal acts name +
        (ms.countP (fun m => decide (m.Name = name)) : Int) := by
  induction ms generalizing acts with
  | nil => simp [collect]
  | cons m rest ih =>
    have hc : collect acts (m :: rest) = collect (collectStep acts m) rest := rfl
    rw [hc, ih, okErrTotal_collectStep, List.countP_cons]
    by_cases h : m.Name = name
    · simp only [h]
      norm_num
      ring
    · simp [h]

/-! ### Lemmas about the rate limiter -/

/-- With `rate = 0` no elapsed time ever adds a token, so a drained
bucket stays drained and `Allow` fails without changing the state. -/
theorem allow_rate_zero (rl : RateLimiter) (now : Int)
    (hr : rl.rate = 0) (ht : rl.tokens ≤ 0) :
    rl.Allow now = (false, rl) := by
  simp [RateLimiter.Allow, hr, Int.tdiv]
  omega

/-- With `rate = 0` and an empty bucket, `Wait` never returns: every
`Allow` in the sleep loop fails, whatever the call instants. -/
theorem waitRun_rate_zero (rl : RateLimiter) (ts : List Int)
    (hr : rl.rate = 0) (ht : rl.tokens ≤ 0) :
    rl.waitRun ts = none := by
  induction ts generalizing rl with
  | nil => rfl
  | cons t rest ih =>
    rw [RateLimiter.waitRun, allow_rate_zero rl t hr ht]
    exact ih rl hr ht

/-! ### Claims C1, C2, C3 -/

/-- C1, counterexample: the very first `Allow` of a limiter built with
`NewRateLimiter(0)` fails — contradicting the claim that with R=0 every
acquire is a no-op that returns immediately. -/
theorem claim_C1_counterexample :
    ((NewRateLimiter 0 0).Allow 1000000000).1 = false := by decide

/-- C1, amended: for a limiter constructed with R=0, every `Allow`
returns false with the state unchanged, so `Wait` — which loops on
`Allow` — never returns, at whatever instants its retries run: RPS 0
blocks the worker forever instead of leaving it unlimited. -/
theorem claim_C1_zero_rps_blocks (t0 now : Int) (ts : List Int) :
    (NewRateLimiter 0 t0).Allow now = (false, NewRateLimiter 0 t0) ∧
    (NewRateLimiter 0 t0).waitRun ts = none := by
  refine ⟨allow_rate_zero _ _ rfl ?_, waitRun_rate_zero _ _ rfl ?_⟩ <;>
    simp [NewRateLimiter]

/-- C2, counterexample: a success whose latency is 61 s is recorded with
the raw value 61000000 us, which lies outside [1 us, 60000000 us] and is
not clamped to the histogram bound — contradicting the claim that values
are clamped so the histogram count always equals the success count. -/
theorem claim_C2_counterexample :
    isSuccessMetric slowMetric = true ∧
    findStats (collectStep [] slowMetric) (("A").toList) =
      some { Name := ("A").toList, TotalOK := 1, TotalErrors := 0,
             recorded := [61000000], BytesTotal := 5 } ∧
    ¬(61000000 ≤ (60000000 : Int)) := by decide

/-- C2, amended: for every success the collector passes the raw latency
`(end - start) us` to `Histogram.RecordValue` unmodified — it performs no
clamping, and ignores the record call's error return, so out-of-range
latencies reach the histogram library as-is. -/
theorem claim_C2_raw_latency_recorded (acts : List (List Char × ActionStats))
    (m : RequestMetric) (h : isSuccessMetric m = true) :
    (findStats (collectStep acts m) m.Name).map ActionStats.recorded =
      some (((findStats acts m.Name).getD (newStats m.Name)).recorded ++
        [latencyMicros m]) := by
  rw [collectStep_findStats_self]
  simp [updateStats, h]

/-- C2, witness: the amended theorem applied to the 61 s success shows
the out-of-range raw value being handed to the histogram. -/
theorem claim_C2_witness :
    (findStats (collectStep [] slowMetric) slowMetric.Name).map
        ActionStats.recorded = some [61000000] := by
  have h := claim_C2_raw_latency_recorded [] slowMetric (by decide)
  rw [h]; decide

/-- C3, counterexample: in the shutdown sequence the final report is
printed and the output file written strictly before the deferred
`collector.Stop()` closes the sink and drains it, and an event still
queued at report time is absent from the report snapshot though it was
successfully submitted — contradicting the claimed close-drain-report
order. -/
theorem claim_C3_counterexample :
    (runShutdownTrace true).indexOf RunEvent.reportPrinted <
      (runShutdownTrace true).indexOf RunEvent.sinkClosed ∧
    (runShutdownTrace true).indexOf RunEvent.fileWritten <
      (runShutdownTrace true).indexOf RunEvent.sinkClosed ∧
    findStats (reportSnapshot [pendingMetric] []) pendingMetric.Name = none ∧
    findStats (statsAfterShutdown [pendingMetric] []) pendingMetric.Name ≠
      none := by decide

/-- C3, amended: after the deadline fires, `Run` waits for the workers,
prints the final report, writes the output file when a path was given,
and only then — via the deferred `collector.Stop()` — closes the sink
and waits for the aggregator to drain; the report is computed from the
aggregator state at report time, and events still queued then are
aggregated only after the report. -/
theorem claim_C3_shutdown_order :
    (∀ b : Bool,
      (runShutdownTrace b).indexOf RunEvent.workersReturned <
        (runShutdownTrace b).indexOf RunEvent.reportPrinted ∧
      (runShutdownTrace b).indexOf RunEvent.reportPrinted <
        (runShutdownTrace b).indexOf RunEvent.sinkClosed ∧
      (runShutdownTrace b).indexOf RunEvent.sinkClosed <
        (runShutdownTrace b).indexOf RunEvent.aggregatorDrained ∧
      (b = true →
        (runShutdownTrace b).indexOf RunEvent.reportPrinted <
          (runShutdownTrace b).indexOf RunEvent.fileWritten ∧
        (runShutdownTrace b).indexOf RunEvent.fileWritten <
          (runShutdownTrace b).indexOf RunEvent.sinkClosed)) ∧
    (∀ pending acts, reportSnapshot pending acts = acts ∧
      statsAfterShutdown pending acts = collect acts pending) := by
  constructor
  · intro b; cases b <;> decide
  · exact fun _ _ => ⟨rfl, rfl⟩

/-- C3, witness: the shutdown-order theorem at a concrete run with an
output file and one queued event. -/
theorem claim_C3_witness :
    ((runShutdownTrace true).indexOf RunEvent.reportPrinted <
      (runShutdownTrace true).indexOf RunEvent.fileWritten ∧
     (runShutdownTrace true).indexOf RunEvent.fileWritten <
      (runShutdownTrace true).indexOf RunEvent.sinkClosed) ∧
    reportSnapshot [pendingMetric] [] = [] ∧
    statsAfterShutdown [pendingMetric] [] = collect [] [pendingMetric] :=
  ⟨(claim_C3_shutdown_order.1 true).2.2.2 rfl,
   (claim_C3_shutdown_order.2 [pendingMetric] []).1,
   (claim_C3_shutdown_order.2 [pendingMetric] []).2⟩

/-! ### Claims C5, C6, C7 -/

/-- C5: a drained event is a success exactly when its error descriptor is
empty and its status is in [200, 400); a success increments the action's
success count and appends the latency (end - start, in microseconds) to
the histogram, otherwise the error count is incremented; the byte count
is added in both cases. -/
theorem claim_C5_success_classification
    (acts : List (List Char × ActionStats)) (m : RequestMetric) :
    (isSuccessMetric m = true ↔
      (m.Error = [] ∧ 200 ≤ m.StatusCode ∧ m.StatusCode < 400)) ∧
    findStats (collectStep acts m) m.Name =
      some { Name := ((findStats acts m.Name).getD (newStats m.Name)).Name,
             TotalOK := ((findStats acts m.Name).getD (newStats m.Name)).TotalOK
               + (if isSuccessMetric m then 1 else 0),
             TotalErrors :=
               ((findStats acts m.Name).getD (newStats m.Name)).TotalErrors
               + (if isSuccessMetric m then 0 else 1),
             recorded :=
               ((findStats acts m.Name).getD (newStats m.Name)).recorded
               ++ (if isSuccessMetric m then [latencyMicros m] else []),
             BytesTotal :=
               ((findStats acts m.Name).getD (newStats m.Name)).BytesTotal
               + m.BytesRead } := by
  refine ⟨by simp [isSuccessMetric], ?_⟩
  rw [collectStep_findStats_self]
  by_cases hs : isSuccessMetric m <;> simp [updateStats, hs]

/-- C5, witness: the classification theorem evaluated on the concrete
success event `slowMetric`. -/
theorem claim_C5_witness :
    findStats (collectStep [] slowMetric) slowMetric.Name =
      some { Name := ("A").toList, TotalOK := 1, TotalErrors := 0,
             recorded := [61000000], BytesTotal := 5 } := by
  have h := (claim_C5_success_classification [] slowMetric).2
  rw [h]; decide

/-- C6: after draining any event list, each action's success count plus
error count equals the number of drained events bearing that name (each
drained event increments exactly one of the two counters). -/
theorem claim_C6_counter_conservation (ms : List RequestMetric)
    (name : List Char) :
    okErrTotal (collect [] ms) name =
      (ms.countP (fun m => decide (m.Name = name)) : Int) := by
  have h := okErrTotal_collect ms [] name
  simpa [okErrTotal, findStats, newStats] using h

/-- C6, witness: conservation evaluated on a concrete three-event drain
(two events named `A`, one named `P`). -/
theorem claim_C6_witness :
    okErrTotal (collect [] [slowMetric, pendingMetric, slowMetric])
      (("A").toList) = 2 := by
  have h := claim_C6_counter_conservation [slowMetric, pendingMetric, slowMetric]
    (("A").toList)
  rw [h]; decide

/-- C7: with a non-empty credential list of length N, the credentials
returned for user id `u` are the list entry at index `u % N`, and the
manager state is unchanged by the call (so the result is deterministic
and independent of call order). -/
theorem claim_C7_modulo_selection (cm : CredentialsManager) (u : Nat)
    (h : 0 < cm.credentials.length) :
    (cm.GetCredentialsForUser u).1 =
      some (cm.credentials.get ⟨u % cm.credentials.length, Nat.mod_lt u h⟩) ∧
    (cm.GetCredentialsForUser u).2 = cm := by
  refine ⟨?_, rfl⟩
  simp [CredentialsManager.GetCredentialsForUser]

/-- C7, witness: the two-entry pool `cmEx` hands user 5 the entry at
index 5 % 2 = 1. -/
theorem claim_C7_witness :
    (cmEx.GetCredentialsForUser 5).1 = some credB ∧
    (cmEx.GetCredentialsForUser 5).2 = cmEx := by
  have h := claim_C7_modulo_selection cmEx 5 (by decide)
  exact ⟨by rw [h.1]; decide, h.2⟩

/-! ### Claim C10 -/

/-- C10: when the worker's CSRF token is empty, the form body is sent
verbatim — the literal `CSRF_TOKEN_PLACEHOLDER` is not replaced (in
particular not by the empty string); and a non-empty JSON body is always
sent verbatim, whatever the token, so substitution can only ever happen
in the form-body branch. -/
theorem claim_C10_csrf_placeholder (j f tok : List Char) :
    (tok = [] → buildBody j f tok = if j ≠ [] then j else f) ∧
    (j ≠ [] → buildBody j f tok = j) := by
  constructor
  · intro h
    subst h
    by_cases hj : j = [] <;> by_cases hf : f = [] <;> simp [buildBody, hj, hf]
  · intro hj
    simp [buildBody, hj]

/-- C10, witness: with an empty token the placeholder-bearing form body
goes out untouched, and a placeholder-bearing JSON body is untouched even
with a non-empty token. -/
theorem claim_C10_witness :
    buildBody [] formBodyEx [] = formBodyEx ∧
    buildBody jsonBodyEx formBodyEx (("T").toList) = jsonBodyEx := by
  refine ⟨?_, (claim_C10_csrf_placeholder jsonBodyEx formBodyEx _).2 (by decide)⟩
  have h := (claim_C10_csrf_placeholder [] formBodyEx []).1 rfl
  rw [h]; decide

/-! ### Lemmas about `replaceAll` -/

/-- A pending skip is a drop. -/
theorem raAux_skip_drop (pat rep : List Char) (s : List Char) (n : Nat) :
    raAux pat rep s n = raAux pat rep (s.drop n) 0 := by
  induction s generalizing n with
  | nil => cases n <;> rfl
  | cons c rest ih =>
    cases n with
    | zero => rfl
    | succ k => simpa [raAux] using ih k

/-- Characters that cannot start the pattern pass through `replaceAll`
unchanged: a brace-free chunk before the text is copied verbatim when the
pattern opens with a brace. -/
theorem replaceAll_braceFree_pre (pat rep p s : List Char)
    (hpat : pat.head? = some '\x7b') (hp : '\x7b' ∉ p) :
    replaceAll (p ++ s) pat rep = p ++ replaceAll s pat rep := by
  induction p with
  | nil => rfl
  | cons c p' ih =>
    cases pat with
    | nil => simp at hpat
    | cons a pt =>
      have ha : a = '\x7b' := by simpa using hpat
      subst ha
      have hc : ¬ (('\x7b' :: pt).isPrefixOf (c :: (p' ++ s)) = true) := by
        rw [show (('\x7b' :: pt).isPrefixOf (c :: (p' ++ s))) =
              (('\x7b' == c) && pt.isPrefixOf (p' ++ s)) from rfl]
        simp only [Bool.and_eq_true, beq_iff_eq]
        rintro ⟨hh, -⟩
        exact hp (hh ▸ List.mem_cons_self _ _)
      have hp' : '\x7b' ∉ p' := fun hh => hp (List.mem_cons_of_mem _ hh)
      show raAux _ _ (c :: (p' ++ s)) 0 = _
      rw [raAux, if_neg (fun hand => hc hand.2)]
      exact congrArg (c :: ·) (ih hp')

/-- Behaviour of `replaceAll` at an occurrence sitting at the head of the text:
the pattern is consumed and replaced, and scanning resumes after it. -/
theorem replaceAll_at_occurrence (pat rep s : List Char)
    (hlen : 0 < pat.length) :
    replaceAll (pat ++ s) pat rep = rep ++ replaceAll s pat rep := by
  cases pat with
  | nil => simp at hlen
  | cons a pt =>
    show raAux _ _ (a :: (pt ++ s)) 0 = _
    rw [raAux, if_pos ⟨hlen, List.isPrefixOf_iff_prefix.mpr
      (List.prefix_append (a :: pt) s)⟩]
    have : raAux (a :: pt) rep (pt ++ s) ((a :: pt).length - 1) =
        raAux (a :: pt) rep s 0 := by
      rw [raAux_skip_drop]
      simp [List.drop_left pt s]
    rw [this]
    rfl

/-- Text without an occurrence of the pattern passes through
`replaceAll` unchanged. -/
theorem replaceAll_of_not_hasSub (pat rep s : List Char)
    (h : hasSub pat s = false) :
    replaceAll s pat rep = s := by
  induction s with
  | nil => rfl
  | cons c rest ih =>
    rw [hasSub, Bool.or_eq_false_iff] at h
    show raAux _ _ (c :: rest) 0 = _
    rw [raAux, if_neg (fun hand => by rw [h.1] at hand; exact Bool.false_ne_true hand.2)]
    exact congrArg (c :: ·) (ih h.2)

/-! ### Claim C4 -/

/-- C4, counterexample: with the two-entry pool's credentials loaded, a
`\x7b\x7busername\x7d\x7d` placeholder in the URL (or a header value) of
an action survives `executeAction`'s credential substitution untouched —
and `expandString` does not substitute it either — while the same
placeholder in the form body is replaced; the claim that every
occurrence in URL and header values is replaced is false. -/
theorem claim_C4_counterexample :
    (applyCredentials actionEx credA).URL = patUsername ∧
    patUsername ≠ ("alice").toList ∧
    (applyCredentials actionEx credA).Headers = actionEx.Headers ∧
    (applyCredentials actionEx credA).Body = ("alice").toList ∧
    expandString patUsername 1 0 [] = some patUsername := by decide

/-- C4, amended: credential substitution happens in the form body and
JSON body only — URL, headers, name and method pass through
`executeAction`'s credential step unchanged — and within a body every
occurrence of `\x7b\x7busername\x7d\x7d` is replaced by the worker's
username (with the remaining text further processed for the password and
email placeholders, `\x7b\x7bemail\x7d\x7d` receiving the username). -/
theorem claim_C4_body_only_substitution :
    (∀ (a : Action) (creds : Credentials),
      (applyCredentials a creds).URL = a.URL ∧
      (applyCredentials a creds).Headers = a.Headers ∧
      (applyCredentials a creds).Name = a.Name ∧
      (applyCredentials a creds).Method = a.Method ∧
      (applyCredentials a creds).Body =
        replaceCredentialPlaceholders a.Body creds ∧
      (applyCredentials a creds).JSONBody =
        replaceCredentialPlaceholders a.JSONBody creds) ∧
    (∀ (x y : List Char) (creds : Credentials),
      '\x7b' ∉ x → '\x7b' ∉ creds.Username →
      replaceCredentialPlaceholders (x ++ patUsername ++ y) creds =
        x ++ creds.Username ++
          replaceAll (replaceAll (replaceAll y patUsername creds.Username)
            patPassword creds.Password) patEmail creds.Username) := by
  constructor
  · intro a creds
    refine ⟨rfl, rfl, rfl, rfl, rfl, rfl⟩
  · intro x y creds hx hu
    have hne : ¬(x ++ patUsername ++ y = []) := by simp [patUsername]
    have hxu : '\x7b' ∉ x ++ creds.Username := by
      simp only [List.mem_append, not_or]
      exact ⟨hx, hu⟩
    have h1 : replaceAll (x ++ patUsername ++ y) patUsername creds.Username
        = x ++ creds.Username ++ replaceAll y patUsername creds.Username := by
      rw [List.append_assoc,
        replaceAll_braceFree_pre patUsername creds.Username x _ (by decide) hx,
        replaceAll_at_occurrence patUsername creds.Username y (by decide)]
      simp [List.append_assoc]
    have h2 : replaceAll
        (x ++ creds.Username ++ replaceAll y patUsername creds.Username)
        patPassword creds.Password =
        x ++ creds.Username ++
          replaceAll (replaceAll y patUsername creds.Username)
            patPassword creds.Password := by
      rw [replaceAll_braceFree_pre patPassword creds.Password
          (x ++ creds.Username) _ (by decide) hxu]
    have h3 : replaceAll
        (x ++ creds.Username ++
          replaceAll (replaceAll y patUsername creds.Username)
            patPassword creds.Password) patEmail creds.Username =
        x ++ creds.Username ++
          replaceAll (replaceAll (replaceAll y patUsername creds.Username)
            patPassword creds.Password) patEmail creds.Username := by
      rw [replaceAll_braceFree_pre patEmail creds.Username
          (x ++ creds.Username) _ (by decide) hxu]
    simp only [replaceCredentialPlaceholders, if_neg hne]
    rw [h1, h2, h3]

/-- C4, witness: the amended theorem applied to the body
`u=\x7b\x7busername\x7d\x7d&z` with credentials `alice`/`pw1`. -/
theorem claim_C4_witness :
    replaceCredentialPlaceholders
      ((("u=").toList) ++ patUsername ++ (("&z").toList)) credA =
      ("u=alice&z").toList := by
  have h := claim_C4_body_only_substitution.2 (("u=").toList) (("&z").toList)
    credA (by decide) (by decide)
  rw [h]; decide

/-! ### Claim C9 -/

/-- C9: the extracted CSRF token equals the capture of the first of the
three patterns (meta tag, then input element, then bare
authenticity_token attribute sequence) that matches the body; a later
pattern is never consulted once an earlier one has matched, and when none
matches the worker's token is unchanged. -/
theorem claim_C9_first_pattern_wins (token html : List Char) :
    (∀ cap, scanHtml matchMetaAt html = some cap →
      extractCSRFTokenFromHTML token html = cap) ∧
    (scanHtml matchMetaAt html = none →
      ∀ cap, scanHtml matchInputAt html = some cap →
        extractCSRFTokenFromHTML token html = cap) ∧
    (scanHtml matchMetaAt html = none →
      scanHtml matchInputAt html = none →
        ∀ cap, scanHtml matchAuthAt html = some cap →
          extractCSRFTokenFromHTML token html = cap) ∧
    (scanHtml matchMetaAt html = none →
      scanHtml matchInputAt html = none →
        scanHtml matchAuthAt html = none →
          extractCSRFTokenFromHTML token html = token) := by
  refine ⟨?_, ?_, ?_, ?_⟩
  · intro cap h
    simp [extractCSRFTokenFromHTML, h]
  · intro h1 cap h2
    simp [extractCSRFTokenFromHTML, h1, h2]
  · intro h1 h2 cap h3
    simp [extractCSRFTokenFromHTML, h1, h2, h3]
  · intro h1 h2 h3
    simp [extractCSRFTokenFromHTML, h1, h2, h3]

/-- C9, witness: on a body matched by both the meta pattern (`TKN1`) and
the input pattern (`TKN2`), the extraction yields the meta capture. -/
theorem claim_C9_witness :
    extractCSRFTokenFromHTML [] htmlEx = ("TKN1").toList :=
  (claim_C9_first_pattern_wins [] htmlEx).1 (("TKN1").toList) (by decide)

/-! ### Lemmas about the template scanner -/

/-- A pending skip is a drop. -/
theorem scanTpl_skip_drop (op fb : List Char) (s : List Char) (n : Nat)
    (tape : List Nat) :
    scanTplAux op fb s n tape = scanTplAux op fb (s.drop n) 0 tape := by
  induction s generalizing n with
  | nil => cases n <;> rfl
  | cons c rest ih =>
    cases n with
    | zero => rfl
    | succ k => simpa [scanTplAux] using ih k

/-- A brace-free chunk before the text is emitted verbatim by the
scanner when the opener begins with a brace. -/
theorem scanTpl_braceFree_pre (op fb x s : List Char) (tape : List Nat)
    (hop : op.head? = some '\x7b') (hx : '\x7b' ∉ x) :
    scanTplAux op fb (x ++ s) 0 tape =
      (scanTplAux op fb s 0 tape).map (fun p => (x ++ p.1, p.2)) := by
  induction x with
  | nil =>
    cases h : scanTplAux op fb s 0 tape <;> simp [h]
  | cons c x' ih =>
    cases op with
    | nil => simp at hop
    | cons a pt =>
      have ha : a = '\x7b' := by simpa using hop
      subst ha
      have hpre : ¬ ((('\x7b' :: pt).isPrefixOf (c :: (x' ++ s))) = true) := by
        rw [show (('\x7b' :: pt).isPrefixOf (c :: (x' ++ s))) =
              (('\x7b' == c) && pt.isPrefixOf (x' ++ s)) from rfl]
        simp only [Bool.and_eq_true, beq_iff_eq]
        rintro ⟨hh, -⟩
        exact hx (hh ▸ List.mem_cons_self _ _)
      have hx' : '\x7b' ∉ x' := fun hh => hx (List.mem_cons_of_mem _ hh)
      show scanTplAux _ _ (c :: (x' ++ s)) 0 tape = _
      rw [scanTplAux, if_neg hpre, ih hx']
      cases h : scanTplAux ('\x7b' :: pt) fb s 0 tape <;> simp [h]

/-- The first `\x7d\x7d` after a closer-free chunk sits right at the end
of that chunk. -/
theorem findSubIdx_closer (pre post : List Char)
    (hpre : '\x7d' ∉ pre) (hpost : tplCloser.isPrefixOf post = true) :
    findSubIdx tplCloser (pre ++ post) = some pre.length := by
  induction pre with
  | nil =>
    cases post with
    | nil => simp [tplCloser] at hpost
    | cons c rest => simp [findSubIdx, hpost]
  | cons c pre' ih =>
    have hc : ¬ ((tplCloser.isPrefixOf (c :: (pre' ++ post))) = true) := by
      rw [show tplCloser = '\x7d' :: ['\x7d'] from rfl]
      rw [show (('\x7d' :: ['\x7d']).isPrefixOf (c :: (pre' ++ post))) =
            (('\x7d' == c) && ['\x7d'].isPrefixOf (pre' ++ post)) from rfl]
      simp only [Bool.and_eq_true, beq_iff_eq]
      rintro ⟨hh, -⟩
      exact hpre (hh ▸ List.mem_cons_self _ _)
    have hpre' : '\x7d' ∉ pre' := fun hh => hpre (List.mem_cons_of_mem _ hh)
    show findSubIdx tplCloser (c :: (pre' ++ post)) = _
    rw [findSubIdx, if_neg hc, ih hpre']
    rfl

/-- The scanner at an occurrence: the opener matches at the head, the
text up to the first closer is handed to the replacement rule, and
scanning resumes after the closer.  `w` must be closer-free so the first
`\x7d\x7d` is the one written after it. -/
theorem scanTpl_at_occurrence (op fb w y : List Char) (tape : List Nat)
    (hop : 0 < op.length) (hopc : '\x7d' ∉ op) (hw : '\x7d' ∉ w) :
    scanTplAux op fb (op ++ w ++ tplCloser ++ y) 0 tape =
      match randIntRepl fb w tape with
      | none => none
      | some pr =>
        (scanTplAux op fb y 0 pr.2).map (fun p => (pr.1 ++ p.1, p.2)) := by
  cases op with
  | nil => simp at hop
  | cons a opt =>
    rw [show a :: opt ++ w ++ tplCloser ++ y =
          a :: (opt ++ (w ++ (tplCloser ++ y))) by simp]
    have hpf : (((a :: opt).isPrefixOf (a :: (opt ++ (w ++ (tplCloser ++ y))))) = true) :=
      List.isPrefixOf_iff_prefix.mpr
        (by rw [← List.cons_append]; exact List.prefix_append _ _)
    have hfind : findSubIdx tplCloser (a :: (opt ++ (w ++ (tplCloser ++ y)))) =
        some ((a :: opt) ++ w).length := by
      rw [show a :: (opt ++ (w ++ (tplCloser ++ y))) =
            ((a :: opt) ++ w) ++ (tplCloser ++ y) by simp]
      exact findSubIdx_closer _ _
        (by simp only [List.mem_append, not_or]; exact ⟨hopc, hw⟩)
        (List.isPrefixOf_iff_prefix.mpr (List.prefix_append _ _))
    have hdrop : (a :: (opt ++ (w ++ (tplCloser ++ y)))).drop (a :: opt).length =
        w ++ (tplCloser ++ y) := by
      rw [show a :: (opt ++ (w ++ (tplCloser ++ y))) =
            (a :: opt) ++ (w ++ (tplCloser ++ y)) by simp]
      exact List.drop_left _ _
    have hinner : ((a :: (opt ++ (w ++ (tplCloser ++ y)))).drop
        (a :: opt).length).take (((a :: opt) ++ w).length - (a :: opt).length) =
        w := by
      rw [hdrop, show ((a :: opt) ++ w).length - (a :: opt).length = w.length by
        simp]
      exact List.take_left _ _
    rw [scanTplAux, if_pos hpf, hfind]
    simp only [hinner]
    cases hr : randIntRepl fb w tape with
    | none => simp
    | some pr =>
      have hskip : scanTplAux (a :: opt) fb (opt ++ (w ++ (tplCloser ++ y)))
          (opt.length + w.length + 1 + 1) pr.2 = scanTplAux (a :: opt) fb y 0 pr.2 := by
        rw [scanTpl_skip_drop]
        congr 1
        rw [show opt ++ (w ++ (tplCloser ++ y)) = (opt ++ w ++ tplCloser) ++ y by
          simp]
        rw [show opt.length + w.length + 1 + 1 = (opt ++ w ++ tplCloser).length by
          simp [tplCloser]; omega]
        exact List.drop_left _ _
      simp [hskip]

/-- Function `wrap64` is the identity inside the `int64` range. -/
theorem wrap64_eq_self (z : Int) (h1 : int64Min ≤ z) (h2 : z ≤ int64Max) :
    wrap64 z = z := by
  simp only [wrap64, int64Min, int64Max] at *
  rw [Int.emod_eq_of_lt (by omega) (by omega)]
  omega

/-- The replacement rule on well-formed arguments `A B` with `A < B` and
no `int64` overflow of `B - A + 1`: one tape value is consumed and the
drawn value is `A + (r % (B - A + 1))`. -/
theorem randIntRepl_valid (fb dA dB : List Char) (A B : Int)
    (tape : List Nat)
    (hfields : goFields (' ' :: (dA ++ ' ' :: dB)) = [dA, dB])
    (ha : atoi dA = some A) (hb : atoi dB = some B) (hAB : A < B)
    (hbound : B - A + 1 ≤ int64Max) :
    randIntRepl fb (' ' :: (dA ++ ' ' :: dB)) tape =
      some (itoa (A + ((tape.headD 0 % (B - A + 1).toNat : Nat) : Int)),
        tape.tail) := by
  have hw64 : wrap64 (B - A + 1) = B - A + 1 :=
    wrap64_eq_self _ (by simp only [int64Min]; omega) hbound
  simp only [randIntRepl, hfields, ha, hb, if_pos hAB, hw64,
    if_pos (by omega : (0 : Int) < B - A + 1)]
  rfl

/-- The replacement rule on malformed arguments (wrong field count, a
parse failure, or `A ≥ B`): the fallback literal, no tape consumed. -/
theorem randIntRepl_fallback (fb w : List Char) (tape : List Nat)
    (hmal : ∀ pa pb, goFields w = [pa, pb] →
      ∀ A B : Int, atoi pa = some A → atoi pb = some B → B ≤ A) :
    randIntRepl fb w tape = some (fb, tape) := by
  rcases hgf : goFields w with - | ⟨pa, rest1⟩
  · simp [randIntRepl, hgf]
  · rcases rest1 with - | ⟨pb, rest2⟩
    · simp [randIntRepl, hgf]
    · rcases rest2 with - | ⟨c, rest3⟩
      · rcases hpa : atoi pa with - | A
        · simp [randIntRepl, hgf, hpa]
        · rcases hpb : atoi pb with - | B
          · simp [randIntRepl, hgf, hpa, hpb]
          · have hba : B ≤ A := hmal pa pb hgf A B hpa hpb
            simp [randIntRepl, hgf, hpa, hpb, not_lt.mpr hba]
      · simp [randIntRepl, hgf]

/-- Text without an occurrence of the opener passes through the scanner
unchanged, consuming no randomness. -/
theorem scanTpl_of_not_hasSub (op fb s : List Char) (tape : List Nat)
    (h : hasSub op s = false) :
    scanTplAux op fb s 0 tape = some (s, tape) := by
  induction s with
  | nil => rfl
  | cons c rest ih =>
    rw [hasSub, Bool.or_eq_false_iff] at h
    rw [scanTplAux, if_neg (by rw [h.1]; exact Bool.false_ne_true), ih h.2]
    rfl

/-! ### Claim C8 -/

/-- C8, counterexample: for `A = -2^63`, `B = 2^63 - 1` we have `A < B`,
yet the expansion does not produce a value in `[A, B]` — `max - min + 1`
overflows `int64` to a non-positive number and `rand.Intn` panics
(modelled by `none`), crashing the expansion instead of yielding an
in-range integer. -/
theorem claim_C8_counterexample :
    randIntStage
      (("\x7b\x7brandInt -9223372036854775808 9223372036854775807\x7d\x7d").toList)
      [0] = none ∧
    expandString
      (("\x7b\x7brandInt -9223372036854775808 9223372036854775807\x7d\x7d").toList)
      1 0 [0] = none := by decide

/-- C8, amended: (1) an occurrence of
`\x7b\x7brandInt A B\x7d\x7d` with `A < B` — provided `B - A + 1` does
not overflow `int64`, otherwise `rand.Intn` panics — expands to the
decimal integer `A + (r % (B - A + 1))`, which lies in `[A, B]`
inclusive, with the rest of the text scanned on; (2) an occurrence whose
arguments are malformed or have `A ≥ B` expands to the literal `1`,
consuming no randomness; (3) a string containing none of the recognised
placeholder openers is returned intact by the whole expansion. -/
theorem claim_C8_randint_range :
    (∀ (x y dA dB : List Char) (A B : Int) (tape : List Nat),
      '\x7b' ∉ x → '\x7d' ∉ dA → '\x7d' ∉ dB →
      goFields (' ' :: (dA ++ ' ' :: dB)) = [dA, dB] →
      atoi dA = some A → atoi dB = some B → A < B →
      B - A + 1 ≤ int64Max →
      randIntStage
          (x ++ patRandInt ++ (' ' :: (dA ++ ' ' :: dB)) ++ tplCloser ++ y)
          tape =
        (randIntStage y tape.tail).map
          (fun p =>
            (x ++ itoa (A + ((tape.headD 0 % (B - A + 1).toNat : Nat) : Int))
              ++ p.1, p.2)) ∧
      A ≤ A + ((tape.headD 0 % (B - A + 1).toNat : Nat) : Int) ∧
      A + ((tape.headD 0 % (B - A + 1).toNat : Nat) : Int) ≤ B) ∧
    (∀ (x w y : List Char) (tape : List Nat),
      '\x7b' ∉ x → '\x7d' ∉ w →
      (∀ pa pb, goFields w = [pa, pb] →
        ∀ A B : Int, atoi pa = some A → atoi pb = some B → B ≤ A) →
      randIntStage (x ++ patRandInt ++ w ++ tplCloser ++ y) tape =
        (randIntStage y tape).map
          (fun p => (x ++ (("1").toList) ++ p.1, p.2))) ∧
    (∀ (s : List Char) (uid now : Int) (tape : List Nat),
      hasSub patUserId s = false → hasSub patEpochms s = false →
      hasSub patRandInt s = false → hasSub patPickMovies s = false →
      hasSub patRandDelay s = false →
      expandString s uid now tape = some s) := by
  refine ⟨?_, ?_, ?_⟩
  · intro x y dA dB A B tape hx hdA hdB hfields ha hb hAB hbound
    have hw : '\x7d' ∉ (' ' :: (dA ++ ' ' :: dB)) := by
      simp only [List.mem_cons, List.mem_append, not_or]
      exact ⟨by decide, hdA, by decide, hdB⟩
    have hpos : 0 < (B - A + 1).toNat := by omega
    have hmod : tape.headD 0 % (B - A + 1).toNat < (B - A + 1).toNat :=
      Nat.mod_lt _ hpos
    refine ⟨?_, by omega, by omega⟩
    show scanTplAux patRandInt (("1").toList) _ 0 tape = _
    rw [show x ++ patRandInt ++ (' ' :: (dA ++ ' ' :: dB)) ++ tplCloser ++ y =
          x ++ (patRandInt ++ (' ' :: (dA ++ ' ' :: dB)) ++ tplCloser ++ y) by
        simp [List.append_assoc]]
    rw [scanTpl_braceFree_pre patRandInt (("1").toList) x _ tape
      (by decide) hx]
    rw [scanTpl_at_occurrence patRandInt (("1").toList) _ y tape
      (by decide) (by decide) hw]
    rw [randIntRepl_valid _ dA dB A B tape hfields ha hb hAB hbound]
    simp [randIntStage, Option.map_map, List.append_assoc]
    rfl
  · intro x w y tape hx hw hmal
    show scanTplAux patRandInt (("1").toList) _ 0 tape = _
    rw [show x ++ patRandInt ++ w ++ tplCloser ++ y =
          x ++ (patRandInt ++ w ++ tplCloser ++ y) by simp [List.append_assoc]]
    rw [scanTpl_braceFree_pre patRandInt (("1").toList) x _ tape
      (by decide) hx]
    rw [scanTpl_at_occurrence patRandInt (("1").toList) w y tape
      (by decide) (by decide) hw]
    rw [randIntRepl_fallback _ w tape hmal]
    simp [randIntStage, Option.map_map, List.append_assoc]
    rfl
  · intro s uid now tape h1 h2 h3 h4 h5
    rw [expandString, replaceAll_of_not_hasSub _ _ _ h1,
      replaceAll_of_not_hasSub _ _ _ h2]
    rw [show randIntStage s tape = some (s, tape) from
      scanTpl_of_not_hasSub _ _ _ _ h3]
    simp only [pickStage, h4, Bool.false_eq_true, if_false]
    rw [show randDelayStage s tape = some (s, tape) from
      scanTpl_of_not_hasSub _ _ _ _ h5]

/-- C8, witness: the amended theorem at concrete inputs — a valid
`randInt 3 7` draw with tape value 10 yields `3 + 10 % 5 = 3`; a
malformed `randInt 9 2` yields the literal `1` without consuming the
tape; and a placeholder-free string passes through `expandString`
intact. -/
theorem claim_C8_witness :
    randIntStage ((("p=").toList) ++ patRandInt ++
        (' ' :: ((("3").toList) ++ ' ' :: (("7").toList))) ++ tplCloser ++ [])
        [10] = some ((("p=3").toList), []) ∧
    randIntStage ((("q=").toList) ++ patRandInt ++ ((" 9 2").toList) ++
        tplCloser ++ []) [5] = some ((("q=1").toList), [5]) ∧
    expandString (("plain text").toList) 1 0 [] =
      some (("plain text").toList) := by
  refine ⟨?_, ?_, ?_⟩
  · have h := (claim_C8_randint_range.1 (("p=").toList) [] (("3").toList)
      (("7").toList) 3 7 [10] (by decide) (by decide) (by decide) (by decide)
      (by decide) (by decide) (by decide) (by decide)).1
    rw [h]; decide
  · have hmal : ∀ pa pb, goFields ((" 9 2").toList) = [pa, pb] →
        ∀ A B : Int, atoi pa = some A → atoi pb = some B → B ≤ A := by
      intro pa pb hgf A B hA hB
      have h0 : goFields ((" 9 2").toList) =
          [("9").toList, ("2").toList] := by decide
      rw [h0] at hgf
      injection hgf with e1 e2
      injection e2 with e2 e3
      subst e1
      subst e2
      have h9 : atoi (("9").toList) = some (9 : Int) := by decide
      have h2 : atoi (("2").toList) = some (2 : Int) := by decide
      rw [h9] at hA
      rw [h2] at hB
      injection hA with eA
      injection hB with eB
      omega
    have h := claim_C8_randint_range.2.1 (("q=").toList) ((" 9 2").toList)
      [] [5] (by decide) (by decide) hmal
    rw [h]; decide
  · exact claim_C8_randint_range.2.2 (("plain text").toList) 1 0 []
      (by decide) (by decide) (by decide) (by decide) (by decide)

end Stampede
